import Mathlib

/-!
Shallow embedding of `src/scraper.py` (GrantParkHoldings-Scraper): a sequential
e-mail scraper that normalizes a website identifier, enumerates a fixed list of
candidate subpages, fetches each one, extracts regex-matching e-mail addresses
from the markup-stripped text, and writes the merged, sorted, comma-joined set
back as a new column of the record store.

The network is modelled as a function from URL to an optional HTTP response
(`none` standing for a raised `requests.RequestException`); an uncaught Python
exception is modelled as the `Except.error` case carrying the exception message.
-/

namespace EmailScraper

/-- Characters Python's `str.strip()` removes (the ASCII whitespace range). -/
def isPySpace (c : Char) : Bool :=
  c = ' ' || c = '\t' || c = '\n' || c = '\r' || c = '\x0b' || c = '\x0c'

/-- Model of Python's `str.strip()`: drop leading and trailing whitespace. -/
def pyStrip (s : String) : String :=
  ⟨((s.data.dropWhile isPySpace).reverse.dropWhile isPySpace).reverse⟩

/-- Code-point prefix test, as Python's `str.startswith` performs it. -/
def beginsWith : List Char → List Char → Bool
  | [], _ => true
  | _ :: _, [] => false
  | p :: ps, c :: cs => p = c && beginsWith ps cs

/-- The test `website.startswith(("http://", "https://"))` from `scrape_emails`. -/
def hasSchemePre (s : String) : Bool :=
  beginsWith "http://".data s.data || beginsWith "https://".data s.data

/-- Configuration constant `COMMON_SUBPAGES`: the candidate subpaths tried on
every site, the empty string standing for the homepage. -/
def COMMON_SUBPAGES : List String :=
  ["", "contact", "about", "team", "support", "contact-us", "about-us", "our-team", "staff"]

/-- Character class `[a-zA-Z0-9_.+-]`, the local part of `EMAIL_REGEX`. -/
def isLocalChar (c : Char) : Bool :=
  c.isAlpha || c.isDigit || c = '_' || c = '.' || c = '+' || c = '-'

/-- Character class `[a-zA-Z0-9-]`, the host part of `EMAIL_REGEX`. -/
def isHostChar (c : Char) : Bool :=
  c.isAlpha || c.isDigit || c = '-'

/-- Character class `[a-zA-Z0-9-.]`, the tail of `EMAIL_REGEX`. -/
def isTailChar (c : Char) : Bool :=
  c.isAlpha || c.isDigit || c = '-' || c = '.'

/-- Attempt of `EMAIL_REGEX = [a-zA-Z0-9_.+-]+@[a-zA-Z0-9-]+\.[a-zA-Z0-9-.]+`
anchored at the head of the text, returning the match and the remaining text.
Python's backtracking engine is deterministic on this pattern: `@` is not in the
local class and `.` is not in the host class, so shortening a greedy `+` run
puts a class character where the following literal is required and can never
succeed; each `+` therefore consumes exactly its maximal run. -/
def matchEmailAt (cs : List Char) : Option (List Char × List Char) :=
  match cs.takeWhile isLocalChar, cs.dropWhile isLocalChar with
  | loc@(_ :: _), '@' :: r1 =>
    match r1.takeWhile isHostChar, r1.dropWhile isHostChar with
    | host@(_ :: _), '.' :: r2 =>
      match r2.takeWhile isTailChar, r2.dropWhile isTailChar with
      | tl@(_ :: _), rest => some (loc ++ '@' :: (host ++ '.' :: tl), rest)
      | _, _ => none
    | _, _ => none
  | _, _ => none

/-- Scan for successive non-overlapping leftmost matches the way `re.findall`
does: try a match at each position, emit it and resume after its end, else
advance one character. Fuel bounds the recursion; every step shortens the text,
so the text length is enough fuel. -/
def findallAux : Nat → List Char → List String
  | 0, _ => []
  | _ + 1, [] => []
  | fuel + 1, c :: cs =>
    match matchEmailAt (c :: cs) with
    | some (m, rest) => (⟨m⟩ : String) :: findallAux fuel rest
    | none => findallAux fuel cs

/-- Model of `re.findall(EMAIL_REGEX, text)`: all matches, in text order. -/
def findallEmails (text : String) : List String :=
  findallAux text.data.length text.data

/-- Modelled from the spec: `BeautifulSoup(resp.text, "html.parser").get_text()`
is library code outside this repository; the spec says the Fetcher parses the
body as HTML and extracts all visible text with the markup stripped. The model
removes every tag, i.e. every run from a `<` outside a tag to the next `>`. -/
def stripTags (inTag : Bool) : List Char → List Char
  | [] => []
  | c :: cs =>
    if inTag then
      if c = '>' then stripTags false cs else stripTags true cs
    else
      if c = '<' then stripTags true cs else c :: stripTags false cs

/-- Modelled from the spec: the visible text of an HTML document (see
`stripTags`). -/
def get_text (s : String) : String :=
  ⟨stripTags false s.data⟩

/-- An HTTP response as `get_emails_from_url` consumes it: status code and body
text. -/
structure Response where
  status_code : Nat
  text : String

/-- The network: what `requests.get(url, headers=HEADERS, timeout=...)` yields
at each URL. `none` models a raised `requests.RequestException` (DNS failure,
connection refusal, timeout, TLS failure), which the source catches. -/
abbrev Net : Type := String → Option Response

/-- Model of `get_emails_from_url(url)`: empty set on a caught request
exception or a status other than 200, otherwise the set of distinct
`EMAIL_REGEX` matches in the markup-stripped body text. -/
def get_emails_from_url (net : Net) (url : String) : Finset String :=
  match net url with
  | none => ∅
  | some resp =>
    if resp.status_code ≠ 200 then ∅
    else (findallEmails (get_text resp.text)).toFinset

/-- Model of `urllib.parse.urljoin(base, sub)` restricted to the only shapes
`scrape_emails` builds: the base ends in `/` and `sub` is a plain relative
segment from `COMMON_SUBPAGES` (no scheme, no authority, no leading slash, no
query or fragment), for which RFC 3986 reference resolution appends the segment
to the base. -/
def urljoin (base sub : String) : String :=
  base ++ sub

/-- Target the loop body of `scrape_emails` builds for one subpage entry:
`urljoin(base + "/", sub) if sub else base`. -/
def targetFor (base sub : String) : String :=
  if sub = "" then base else urljoin (base ++ "/") sub

/-- The targets one pass over `COMMON_SUBPAGES` requests, in order. -/
def targetsOf (base : String) : List String :=
  COMMON_SUBPAGES.map (targetFor base)

/-- Scheme and network location as returned by `urllib.parse.urlparse`. -/
structure UrlParts where
  scheme : String
  netloc : String

/-- Characters that terminate the netloc in CPython's `urlsplit`: `/`, `?`, `#`. -/
def isNetlocChar (c : Char) : Bool :=
  !(c = '/' || c = '?' || c = '#')

/-- Model of `urllib.parse.urlparse` restricted to URLs beginning with
`http://` or `https://` — after normalization every URL reaching it in
`scrape_emails` does. The netloc is the text after the `//` up to the first
`/`, `?` or `#`; path, query and fragment are discarded by the caller. CPython's
`urlsplit` raises `ValueError("Invalid IPv6 URL")` when the netloc contains `[`
without `]` or `]` without `[`, modelled as the error case. (The NFKC netloc
check, which can only fire on non-ASCII input, is not modelled; the claims
concern ASCII identifiers.) -/
def urlparse (url : String) : Except String UrlParts :=
  let scheme : String := if beginsWith "https://".data url.data then "https" else "http"
  let rest : String := if beginsWith "https://".data url.data then url.drop 8 else url.drop 7
  let netloc : String := ⟨rest.data.takeWhile isNetlocChar⟩
  if (netloc.data.contains '[' && !netloc.data.contains ']')
      || (netloc.data.contains ']' && !netloc.data.contains '[') then
    Except.error "Invalid IPv6 URL"
  else
    Except.ok ⟨scheme, netloc⟩

/-- Normalization step of `scrape_emails`: when neither `http://` nor
`https://` starts the identifier verbatim, `website = "http://" + website.strip()`;
surrounding whitespace is removed only on that path. -/
def normalizeWebsite (s : String) : String :=
  if hasSchemePre s then s else "http://" ++ pyStrip s

/-- The website cell as Python sees it: a string, or any non-string value (such
as the NaN pandas yields for a blank cell), which fails `isinstance(website, str)`. -/
inductive CellValue where
  | str (s : String)
  | nonStr
  deriving DecidableEq

/-- The accumulation loop of `scrape_emails` over a list of subpath entries:
`found = set(); for sub in subs: found.update(get_emails_from_url(target))`. -/
def crawlOver (net : Net) (base : String) (subs : List String) : Finset String :=
  subs.foldl (fun acc sub => acc ∪ get_emails_from_url net (targetFor base sub)) ∅

/-- Model of `scrape_emails(website)`. `Except.error` is an uncaught Python
exception escaping the function — only `requests.RequestException` is caught
(inside `get_emails_from_url`), so the `ValueError` that `urlparse` can raise
propagates to the caller. -/
def scrape_emails (net : Net) (website : CellValue) : Except String (Finset String) :=
  match website with
  | CellValue.nonStr => Except.ok ∅
  | CellValue.str s =>
    if pyStrip s = "" then Except.ok ∅
    else
      match urlparse (normalizeWebsite s) with
      | Except.error e => Except.error e
      | Except.ok p =>
        Except.ok (crawlOver net (p.scheme ++ "://" ++ p.netloc) COMMON_SUBPAGES)

/-- The URLs `scrape_emails` hands to `requests.get`, in request order: empty
when input validation rejects the cell or `urlparse` raises before the loop. -/
def crawl_targets (website : CellValue) : List String :=
  match website with
  | CellValue.nonStr => []
  | CellValue.str s =>
    if pyStrip s = "" then []
    else
      match urlparse (normalizeWebsite s) with
      | Except.error _ => []
      | Except.ok p => targetsOf (p.scheme ++ "://" ++ p.netloc)

/-- Lexicographic comparison of character lists by code point, the order
Python's `<` and `sorted` use on strings. -/
def lexLe : List Char → List Char → Bool
  | [], _ => true
  | _ :: _, [] => false
  | a :: as, b :: bs =>
    if a.toNat < b.toNat then true
    else if b.toNat < a.toNat then false
    else lexLe as bs

/-- Python's string order as a relation on `String`. -/
def pyLe (a b : String) : Prop :=
  lexLe a.data b.data = true

instance : DecidableRel pyLe := fun a b =>
  if h : lexLe a.data b.data = true then Decidable.isTrue h else Decidable.isFalse h

theorem lexLe_total : ∀ as bs : List Char, lexLe as bs = true ∨ lexLe bs as = true
  | [], _ => Or.inl rfl
  | _ :: _, [] => Or.inr rfl
  | a :: as, b :: bs => by
    rcases Nat.lt_trichotomy a.toNat b.toNat with h | h | h
    · exact Or.inl (by simp [lexLe, h])
    · have ih := lexLe_total as bs
      simpa [lexLe, h] using ih
    · exact Or.inr (by simp [lexLe, h])

theorem Char.toNat_inj {a b : Char} (h : a.toNat = b.toNat) : a = b := by
  apply Char.ext
  apply UInt32.ext
  simpa [Char.toNat, UInt32.toNat] using h

theorem lexLe_antisymm : ∀ as bs : List Char,
    lexLe as bs = true → lexLe bs as = true → as = bs
  | [], [], _, _ => rfl
  | [], _ :: _, _, h => by simp [lexLe] at h
  | _ :: _, [], h, _ => by simp [lexLe] at h
  | a :: as, b :: bs, h₁, h₂ => by
    rcases Nat.lt_trichotomy a.toNat b.toNat with h | h | h
    · simp [lexLe, h, Nat.lt_asymm h] at h₂
    · have hab : a = b := Char.toNat_inj h
      subst hab
      simp [lexLe] at h₁ h₂
      exact congrArg (a :: ·) (lexLe_antisymm as bs h₁ h₂)
    · simp [lexLe, h, Nat.lt_asymm h] at h₁

theorem lexLe_trans : ∀ as bs cs : List Char,
    lexLe as bs = true → lexLe bs cs = true → lexLe as cs = true
  | [], _, _, _, _ => rfl
  | _ :: _, [], _, h, _ => by simp [lexLe] at h
  | _ :: _, _ :: _, [], _, h => by simp [lexLe] at h
  | a :: as, b :: bs, c :: cs, h₁, h₂ => by
    simp only [lexLe] at h₁ h₂ ⊢
    rcases Nat.lt_trichotomy a.toNat b.toNat with hab | hab | hab
    · rcases Nat.lt_trichotomy b.toNat c.toNat with hbc | hbc | hbc
      · have h : a.toNat < c.toNat := Nat.lt_trans hab hbc
        simp [h]
      · have h : a.toNat < c.toNat := by omega
        simp [h]
      · simp [hbc, Nat.lt_asymm hbc] at h₂
    · rcases Nat.lt_trichotomy b.toNat c.toNat with hbc | hbc | hbc
      · have h : a.toNat < c.toNat := by omega
        simp [h]
      · have hac : a.toNat = c.toNat := by omega
        simp [hab] at h₁
        simp [hbc] at h₂
        simp [hac]
        exact lexLe_trans as bs cs h₁ h₂
      · simp [hbc, Nat.lt_asymm hbc] at h₂
    · simp [hab, Nat.lt_asymm hab] at h₁

instance : IsTotal String pyLe :=
  ⟨fun a b => lexLe_total a.data b.data⟩

instance : IsTrans String pyLe :=
  ⟨fun _ _ _ h₁ h₂ => lexLe_trans _ _ _ h₁ h₂⟩

instance : IsAntisymm String pyLe :=
  ⟨fun a b h₁ h₂ => by
    cases a; cases b
    exact congrArg String.mk (lexLe_antisymm _ _ h₁ h₂)⟩

/-- Model of Python's `sorted()` on a set of strings: the unique ascending
(code-point lexicographic) enumeration of the distinct elements. Computed by a
structurally recursive insertion sort on any list representing the underlying
multiset; by antisymmetry the result is independent of the representative. -/
def pySorted (s : Finset String) : List String :=
  Quot.liftOn s.val (fun l => l.insertionSort pyLe) fun _ _ h =>
    List.eq_of_perm_of_sorted
      ((List.perm_insertionSort _ _).trans (h.trans (List.perm_insertionSort _ _).symm))
      (List.sorted_insertionSort _ _) (List.sorted_insertionSort _ _)

/-- The rendering in `run`: `", ".join(sorted(emails)) if emails else ""`. -/
def renderEmails (emails : Finset String) : String :=
  if emails = ∅ then "" else String.intercalate ", " (pySorted emails)

/-- One record of the store: column names associated to cell values. -/
structure Row where
  cells : List (String × CellValue)
  deriving DecidableEq

/-- Lookup `row.get(col, "")`: the cell when present, else the default `""`. -/
def Row.get (r : Row) (col : String) : CellValue :=
  match r.cells.lookup col with
  | some v => v
  | none => CellValue.str ""

/-- The record store: column names plus records. -/
structure DataFrame where
  columns : List String
  rows : List Row
  deriving DecidableEq

/-- The scraping loop of `run`: one `scrape_emails` call per record in order,
each record extended with the rendered `scraped_emails` value; an uncaught
exception from `scrape_emails` aborts the remainder of the batch. -/
def runRows (net : Net) (col : String) : List Row → Except String (List Row)
  | [] => Except.ok []
  | r :: rs =>
    match scrape_emails net (r.get col) with
    | Except.error e => Except.error e
    | Except.ok emails =>
      match runRows net col rs with
      | Except.error e => Except.error e
      | Except.ok rest =>
        Except.ok (⟨r.cells ++ [("scraped_emails", CellValue.str (renderEmails emails))]⟩ :: rest)

/-- Model of `run(input_csv, website_col, output_csv)` up to file I/O: raise
the configuration `ValueError` naming the missing column before any scraping,
otherwise run the loop over the records and append the `scraped_emails` column. -/
def run (net : Net) (input_csv : String) (df : DataFrame) (website_col : String) :
    Except String DataFrame :=
  if website_col ∈ df.columns then
    match runRows net website_col df.rows with
    | Except.error e => Except.error e
    | Except.ok rows => Except.ok ⟨df.columns ++ ["scraped_emails"], rows⟩
  else
    Except.error ("Column \x27" ++ website_col ++ "\x27 not found in " ++ input_csv)

instance {ε α : Type} [DecidableEq ε] [DecidableEq α] : DecidableEq (Except ε α) := fun a b =>
  match a, b with
  | Except.ok x, Except.ok y =>
    if h : x = y then Decidable.isTrue (by rw [h]) else Decidable.isFalse (by simp [h])
  | Except.error x, Except.error y =>
    if h : x = y then Decidable.isTrue (by rw [h]) else Decidable.isFalse (by simp [h])
  | Except.ok _, Except.error _ => Decidable.isFalse (by simp)
  | Except.error _, Except.ok _ => Decidable.isFalse (by simp)

/-! Helper lemmas shared by the claim theorems. -/

theorem string_mk_eq_empty_iff (l : List Char) : (⟨l⟩ : String) = "" ↔ l = [] := by
  constructor
  · intro h
    have : (⟨l⟩ : String).data = ("" : String).data := by rw [h]
    simpa using this
  · intro h
    rw [h]

theorem pyStrip_eq_empty_iff (s : String) :
    pyStrip s = "" ↔ ∀ c ∈ s.data, isPySpace c = true := by
  unfold pyStrip
  rw [string_mk_eq_empty_iff, List.reverse_eq_nil_iff, List.dropWhile_eq_nil_iff]
  constructor
  · intro h c hc
    have hsplit := List.takeWhile_append_dropWhile isPySpace s.data
    rw [← hsplit] at hc
    rcases List.mem_append.mp hc with h1 | h1
    · exact List.mem_takeWhile_imp h1
    · exact h c (List.mem_reverse.mpr h1)
  · intro h c hc
    have : c ∈ s.data.dropWhile isPySpace := List.mem_reverse.mp hc
    exact h c ((List.dropWhile_sublist _).subset this)

theorem beginsWith_append (p l : List Char) : beginsWith p (p ++ l) = true := by
  induction p with
  | nil => rfl
  | cons a ps ih => simp [beginsWith, ih]

theorem hasSchemePre_http_append (t : String) : hasSchemePre ("http://" ++ t) = true := by
  unfold hasSchemePre
  rw [String.data_append]
  rw [beginsWith_append]
  rfl

theorem pyStrip_http_append_ne_empty (t : String) : pyStrip ("http://" ++ t) ≠ "" := by
  intro h
  have hall := (pyStrip_eq_empty_iff _).mp h
  have hmem : 'h' ∈ ("http://" ++ t).data := by
    rw [String.data_append]
    exact List.mem_append.mpr (Or.inl (by decide))
  have := hall 'h' hmem
  simp [isPySpace] at this

theorem mem_crawlOver (net : Net) (base : String) :
    ∀ (subs : List String) (acc : Finset String) (x : String),
      x ∈ subs.foldl (fun a sub => a ∪ get_emails_from_url net (targetFor base sub)) acc
        ↔ x ∈ acc ∨ ∃ sub ∈ subs, x ∈ get_emails_from_url net (targetFor base sub)
  | [], acc, x => by simp
  | sub :: subs, acc, x => by
    rw [List.foldl_cons, mem_crawlOver net base subs]
    simp only [Finset.mem_union, List.mem_cons]
    constructor
    · rintro (⟨h | h⟩ | ⟨t, ht, hx⟩)
      · exact Or.inl h
      · exact Or.inr ⟨sub, Or.inl rfl, h⟩
      · exact Or.inr ⟨t, Or.inr ht, hx⟩
    · rintro (h | ⟨t, ht | ht, hx⟩)
      · exact Or.inl (Or.inl h)
      · exact Or.inl (Or.inr (ht ▸ hx))
      · exact Or.inr ⟨t, ht, hx⟩

theorem mem_crawlOver' (net : Net) (base : String) (subs : List String) (x : String) :
    x ∈ crawlOver net base subs
      ↔ ∃ sub ∈ subs, x ∈ get_emails_from_url net (targetFor base sub) := by
  unfold crawlOver
  rw [mem_crawlOver net base subs ∅ x]
  simp

theorem crawlOver_perm (net : Net) (base : String) {subs₁ subs₂ : List String}
    (h : subs₁.Perm subs₂) : crawlOver net base subs₁ = crawlOver net base subs₂ := by
  ext x
  rw [mem_crawlOver', mem_crawlOver']
  constructor
  · rintro ⟨sub, hs, hx⟩
    exact ⟨sub, h.mem_iff.mp hs, hx⟩
  · rintro ⟨sub, hs, hx⟩
    exact ⟨sub, h.mem_iff.mpr hs, hx⟩

theorem matchEmailAt_decomp {cs m rest : List Char}
    (h : matchEmailAt cs = some (m, rest)) : cs = m ++ rest := by
  unfold matchEmailAt at h
  split at h
  · rename_i a as r1 heq1 heq2
    split at h
    · rename_i b bs r2 heq3 heq4
      split at h
      · rename_i hd tl2 heq5
        rw [Option.some.injEq, Prod.mk.injEq] at h
        obtain ⟨hm, hrest⟩ := h
        have e1 : cs = (a :: as) ++ '@' :: r1 := by
          rw [← heq1, ← heq2, List.takeWhile_append_dropWhile]
        have e2 : r1 = (b :: bs) ++ '.' :: r2 := by
          rw [← heq3, ← heq4, List.takeWhile_append_dropWhile]
        have e3 : r2 = (hd :: tl2) ++ rest := by
          rw [← heq5, ← hrest, List.takeWhile_append_dropWhile]
        rw [e1, e2, e3, ← hm]
        simp
      · exact absurd h (by simp)
    · exact absurd h (by simp)
  · exact absurd h (by simp)

theorem findallAux_infix :
    ∀ (fuel : Nat) (cs : List Char) (m : String), m ∈ findallAux fuel cs → m.data <:+: cs := by
  intro fuel
  induction fuel with
  | zero =>
    intro cs m h
    simp [findallAux] at h
  | succ n ih =>
    intro cs m h
    cases cs with
    | nil => simp [findallAux] at h
    | cons c cs' =>
      rw [findallAux] at h
      cases hm : matchEmailAt (c :: cs') with
      | some pr =>
        obtain ⟨m₁, rest⟩ := pr
        rw [hm] at h
        have hdec := matchEmailAt_decomp hm
        rcases List.mem_cons.mp h with h | h
        · subst h
          exact ⟨[], rest, by simp [hdec]⟩
        · have hinf := ih rest m h
          exact hinf.trans ⟨m₁, [], by simp [hdec]⟩
      | none =>
        rw [hm] at h
        have hinf := ih cs' m h
        exact hinf.trans ⟨[c], [], by simp⟩

theorem findallEmails_infix (text : String) (m : String) (h : m ∈ findallEmails text) :
    m.data <:+: text.data :=
  findallAux_infix _ _ _ h

theorem runRows_index (net : Net) (col : String) :
    ∀ (rows out : List Row), runRows net col rows = Except.ok out →
      ∀ (i : Nat) (r : Row), rows[i]? = some r →
        ∀ e : Finset String, scrape_emails net (r.get col) = Except.ok e →
          out[i]? = some ⟨r.cells ++ [("scraped_emails", CellValue.str (renderEmails e))]⟩ := by
  intro rows
  induction rows with
  | nil =>
    intro out h i r hi
    simp at hi
  | cons r₀ rs ih =>
    intro out h i r hi e he
    rw [runRows] at h
    cases hs : scrape_emails net (r₀.get col) with
    | error e₁ =>
      rw [hs] at h
      exact absurd h (by simp)
    | ok e₀ =>
      rw [hs] at h
      cases hrec : runRows net col rs with
      | error e₁ =>
        rw [hrec] at h
        exact absurd h (by simp)
      | ok rest =>
        rw [hrec] at h
        rw [Except.ok.injEq] at h
        subst h
        cases i with
        | zero =>
          simp only [List.getElem?_cons_zero, Option.some.injEq] at hi
          subst hi
          have he0 : e₀ = e := by
            have := hs.symm.trans he
            rwa [Except.ok.injEq] at this
          subst he0
          simp
        | succ n =>
          simp only [List.getElem?_cons_succ] at hi ⊢
          exact ih rest hrec n r hi e he

theorem targetsOf_count_base (base : String) : (targetsOf base).count base = 1 := by
  have hne : ∀ sub : String, sub.data ≠ [] → ((base ++ "/") ++ sub) ≠ base := by
    intro sub hsub he
    have hlen := congrArg (fun t : String => t.data.length) he
    simp only [String.data_append, List.length_append] at hlen
    cases hsub' : sub.data with
    | nil => exact hsub hsub'
    | cons a l =>
      rw [hsub'] at hlen
      simp at hlen
      omega
  have hexp : targetsOf base =
      base :: [(base ++ "/") ++ "contact", (base ++ "/") ++ "about", (base ++ "/") ++ "team",
        (base ++ "/") ++ "support", (base ++ "/") ++ "contact-us", (base ++ "/") ++ "about-us",
        (base ++ "/") ++ "our-team", (base ++ "/") ++ "staff"] := rfl
  have h0 : List.count base
      [(base ++ "/") ++ "contact", (base ++ "/") ++ "about", (base ++ "/") ++ "team",
        (base ++ "/") ++ "support", (base ++ "/") ++ "contact-us", (base ++ "/") ++ "about-us",
        (base ++ "/") ++ "our-team", (base ++ "/") ++ "staff"] = 0 := by
    rw [List.count_eq_zero]
    intro hmem
    simp only [List.mem_cons, List.not_mem_nil, or_false] at hmem
    rcases hmem with h | h | h | h | h | h | h | h
    all_goals exact hne _ (by decide) h.symm
  rw [hexp, List.count_cons_self, h0]

/-! Claim theorems. -/

/-- Claim C1: on a 200 response the Fetcher returns exactly the set of distinct
`EMAIL_REGEX` matches of the markup-stripped visible text (each match being a
substring of that text), and on a page whose body is
`<p>Contact: jane@firm.com</p>` it returns the singleton set of
`jane@firm.com`. -/
theorem c1_fetcher_extracts_regex_matches :
    (∀ (net : Net) (url : String) (resp : Response), net url = some resp →
      resp.status_code = 200 →
        get_emails_from_url net url = (findallEmails (get_text resp.text)).toFinset
          ∧ ∀ m ∈ get_emails_from_url net url, m.data <:+: (get_text resp.text).data)
    ∧ get_emails_from_url (fun _ => some ⟨200, "<p>Contact: jane@firm.com</p>"⟩) "http://firm.com"
        = {"jane@firm.com"} := by
  constructor
  · intro net url resp hresp hstatus
    have hmain : get_emails_from_url net url = (findallEmails (get_text resp.text)).toFinset := by
      unfold get_emails_from_url
      rw [hresp]
      simp [hstatus]
    refine ⟨hmain, ?_⟩
    intro m hm
    rw [hmain] at hm
    exact findallEmails_infix _ _ (List.mem_toFinset.mp hm)
  · decide

theorem c1_fetcher_extracts_regex_matches_witness :
    get_emails_from_url (fun _ => some ⟨200, "<p>a@b.cd</p>"⟩) "http://x"
      = (findallEmails (get_text "<p>a@b.cd</p>")).toFinset :=
  (c1_fetcher_extracts_regex_matches.1 (fun _ => some ⟨200, "<p>a@b.cd</p>"⟩) "http://x"
    ⟨200, "<p>a@b.cd</p>"⟩ rfl rfl).1

/-- Claim C2: crawling the identifier `firm.org` issues GET requests to exactly
the nine listed targets in this order, and for every base origin the homepage
target occurs exactly once in the enumeration. -/
theorem c2_firm_org_targets :
    crawl_targets (CellValue.str "firm.org") =
      ["http://firm.org", "http://firm.org/contact", "http://firm.org/about",
       "http://firm.org/team", "http://firm.org/support", "http://firm.org/contact-us",
       "http://firm.org/about-us", "http://firm.org/our-team", "http://firm.org/staff"]
    ∧ ∀ base : String, (targetsOf base).count base = 1 :=
  ⟨by decide, targetsOf_count_base⟩

/-- Claim C3: a successful crawl's result set has exactly the members of the
union of the per-target Fetcher result sets, and visiting the subpath list in
any permuted order yields the same set. -/
theorem c3_union_law :
    (∀ (net : Net) (s : String) (found : Finset String),
      scrape_emails net (CellValue.str s) = Except.ok found →
      ∀ x : String,
        x ∈ found ↔ ∃ t ∈ crawl_targets (CellValue.str s), x ∈ get_emails_from_url net t)
    ∧ (∀ (net : Net) (base : String) (subs₁ subs₂ : List String), subs₁.Perm subs₂ →
        crawlOver net base subs₁ = crawlOver net base subs₂) := by
  constructor
  · intro net s found h x
    simp only [scrape_emails] at h
    simp only [crawl_targets]
    by_cases hblank : pyStrip s = ""
    · rw [if_pos hblank] at h
      rw [Except.ok.injEq] at h
      subst h
      rw [if_pos hblank]
      simp
    · rw [if_neg hblank] at h
      rw [if_neg hblank]
      cases hp : urlparse (normalizeWebsite s) with
      | error e =>
        rw [hp] at h
        exact absurd h (by simp)
      | ok p =>
        rw [hp] at h
        injection h with h
        subst h
        show x ∈ crawlOver net (p.scheme ++ "://" ++ p.netloc) COMMON_SUBPAGES ↔
          ∃ t ∈ targetsOf (p.scheme ++ "://" ++ p.netloc), x ∈ get_emails_from_url net t
        rw [mem_crawlOver']
        unfold targetsOf
        constructor
        · rintro ⟨sub, hsub, hx⟩
          exact ⟨targetFor (p.scheme ++ "://" ++ p.netloc) sub, List.mem_map_of_mem _ hsub, hx⟩
        · rintro ⟨t, ht, hx⟩
          obtain ⟨sub, hsub, rfl⟩ := List.mem_map.mp ht
          exact ⟨sub, hsub, hx⟩
  · intro net base subs₁ subs₂ hperm
    exact crawlOver_perm net base hperm

theorem c3_union_law_witness :
    (("a" : String) ∈ (∅ : Finset String) ↔
      ∃ t ∈ crawl_targets (CellValue.str "x.com"),
        ("a" : String) ∈ get_emails_from_url (fun _ => none) t)
    ∧ crawlOver (fun _ => none) "http://b" ["", "contact"]
        = crawlOver (fun _ => none) "http://b" ["contact", ""] :=
  ⟨c3_union_law.1 (fun _ => none) "x.com" ∅ rfl "a",
   c3_union_law.2 (fun _ => none) "http://b" ["", "contact"] ["contact", ""] (by decide)⟩

/-- Claim C4: a caught request exception or any status other than 200 makes the
Fetcher return the empty set without raising; in particular a 404 yields the
empty set. -/
theorem c4_non200_empty :
    (∀ (net : Net) (url : String), net url = none → get_emails_from_url net url = ∅)
    ∧ (∀ (net : Net) (url : String) (resp : Response), net url = some resp →
        resp.status_code ≠ 200 → get_emails_from_url net url = ∅)
    ∧ get_emails_from_url (fun _ => some ⟨404, "<p>boss@firm.com</p>"⟩) "http://firm.com" = ∅ := by
  refine ⟨?_, ?_, by decide⟩
  · intro net url h
    unfold get_emails_from_url
    rw [h]
  · intro net url resp h hs
    unfold get_emails_from_url
    rw [h]
    simp [hs]

theorem c4_non200_empty_witness :
    get_emails_from_url (fun _ => some ⟨500, "err@x.io"⟩) "http://y" = ∅ :=
  c4_non200_empty.2.1 (fun _ => some ⟨500, "err@x.io"⟩) "http://y" ⟨500, "err@x.io"⟩ rfl
    (by decide)

/-- Claim C5 (code bug): the claim says every single-site crawl returns a set
and never raises, malformed URLs included, but `scrape_emails("[")` normalizes
to `http://[`, whose netloc has a `[` without `]`, and `urlparse` raises an
uncaught `ValueError("Invalid IPv6 URL")` that escapes the crawl. -/
theorem c5_scrape_raises_on_bracket :
    scrape_emails (fun _ => none) (CellValue.str "[") = Except.error "Invalid IPv6 URL" := rfl

/-- Claim C6: a non-string cell, or a blank or whitespace-only string, makes
the Crawler return the empty set immediately with an empty request list. -/
theorem c6_blank_no_request :
    (∀ net : Net, scrape_emails net CellValue.nonStr = Except.ok ∅)
    ∧ crawl_targets CellValue.nonStr = []
    ∧ (∀ (net : Net) (s : String), (∀ c ∈ s.data, isPySpace c = true) →
        scrape_emails net (CellValue.str s) = Except.ok ∅
          ∧ crawl_targets (CellValue.str s) = []) := by
  refine ⟨fun net => rfl, rfl, ?_⟩
  intro net s h
  have hblank : pyStrip s = "" := (pyStrip_eq_empty_iff s).mpr h
  constructor
  · simp only [scrape_emails]
    rw [if_pos hblank]
  · simp only [crawl_targets]
    rw [if_pos hblank]

theorem c6_blank_no_request_witness :
    scrape_emails (fun _ => none) (CellValue.str "  ") = Except.ok ∅
      ∧ crawl_targets (CellValue.str "  ") = [] :=
  c6_blank_no_request.2.2 (fun _ => none) "  " (by decide)

/-- Claim C7: an identifier without the verbatim `http://`/`https://` start is
crawled exactly like its `http://`-prefixed stripped form — same targets and
same result set — and the base origin discards path, query and fragment. -/
theorem c7_schemeless_equiv :
    (∀ s : String, hasSchemePre s = false → pyStrip s ≠ "" →
      crawl_targets (CellValue.str s)
          = crawl_targets (CellValue.str ("http://" ++ pyStrip s))
        ∧ ∀ net : Net, scrape_emails net (CellValue.str s)
            = scrape_emails net (CellValue.str ("http://" ++ pyStrip s)))
    ∧ crawl_targets (CellValue.str "example.com")
        = crawl_targets (CellValue.str "http://example.com")
    ∧ crawl_targets (CellValue.str "http://example.com/a/b?q=1#frag")
        = crawl_targets (CellValue.str "http://example.com") := by
  refine ⟨?_, by decide, by decide⟩
  intro s hpre hblank
  have hnorm : normalizeWebsite s = "http://" ++ pyStrip s := by
    simp [normalizeWebsite, hpre]
  have hnorm' : normalizeWebsite ("http://" ++ pyStrip s) = "http://" ++ pyStrip s := by
    simp [normalizeWebsite, hasSchemePre_http_append]
  have hblank' := pyStrip_http_append_ne_empty (pyStrip s)
  constructor
  · simp only [crawl_targets]
    rw [if_neg hblank, if_neg hblank', hnorm, hnorm']
  · intro net
    simp only [scrape_emails]
    rw [if_neg hblank, if_neg hblank', hnorm, hnorm']

theorem c7_schemeless_equiv_witness :
    crawl_targets (CellValue.str "firm.org")
      = crawl_targets (CellValue.str ("http://" ++ pyStrip "firm.org")) :=
  (c7_schemeless_equiv.1 "firm.org" (by decide) (by decide)).1

/-- Claim C8: the `scraped_emails` value written for each record is the
comma-and-space joined, code-point-lexicographically sorted rendering of the
distinct addresses found for it, and the empty string when none were found or
the input was malformed; checked concretely on a two-record batch whose first
record finds two addresses (listed unsorted, one duplicated) and whose second
is a non-string cell. -/
theorem c8_output_column :
    (∀ (net : Net) (col : String) (rows out : List Row),
      runRows net col rows = Except.ok out →
      ∀ (i : Nat) (r : Row), rows[i]? = some r →
        ∀ e : Finset String, scrape_emails net (r.get col) = Except.ok e →
          out[i]? = some ⟨r.cells ++ [("scraped_emails", CellValue.str
            (if e = ∅ then "" else String.intercalate ", " (pySorted e)))]⟩)
    ∧ run (fun url => if url = "http://firm.org" then
            some ⟨200, "<p>zeta@firm.org alpha@firm.org zeta@firm.org</p>"⟩ else none)
        "in.csv"
        ⟨["website"],
          [⟨[("website", CellValue.str "firm.org")]⟩, ⟨[("website", CellValue.nonStr)]⟩]⟩
        "website"
      = Except.ok ⟨["website", "scraped_emails"],
          [⟨[("website", CellValue.str "firm.org"),
             ("scraped_emails", CellValue.str "alpha@firm.org, zeta@firm.org")]⟩,
           ⟨[("website", CellValue.nonStr), ("scraped_emails", CellValue.str "")]⟩]⟩ := by
  constructor
  · intro net col rows out h i r hi e he
    exact runRows_index net col rows out h i r hi e he
  · decide

theorem c8_output_column_witness :
    ([(⟨[("website", CellValue.nonStr), ("scraped_emails", CellValue.str "")]⟩ : Row)] :
        List Row)[0]?
      = some ⟨[("website", CellValue.nonStr)] ++ [("scraped_emails", CellValue.str
          (if (∅ : Finset String) = ∅ then "" else String.intercalate ", " (pySorted ∅)))]⟩ :=
  c8_output_column.1 (fun _ => none) "website" [⟨[("website", CellValue.nonStr)]⟩]
    [⟨[("website", CellValue.nonStr), ("scraped_emails", CellValue.str "")]⟩]
    (by decide) 0 ⟨[("website", CellValue.nonStr)]⟩ rfl ∅ rfl

/-- Claim C9 (code bug): the claim says that once the column-presence check
passes no per-record failure stops the batch, but a record whose identifier
normalizes to a netloc with mismatched brackets raises an uncaught
`ValueError` that aborts the whole run: with the `website` column present, the
batch below fails on its second record `[` instead of finishing. -/
theorem c9_batch_aborts_on_bracket_record :
    ("website" ∈ (["website"] : List String))
    ∧ run (fun _ => none) "in.csv"
        ⟨["website"],
          [⟨[("website", CellValue.str "ok.com")]⟩, ⟨[("website", CellValue.str "[")]⟩]⟩
        "website" = Except.error "Invalid IPv6 URL" :=
  ⟨by decide, by decide⟩

/-- Claim C10: surrounding whitespace is stripped only on the scheme-less
path: every identifier failing the verbatim prefix test is stripped and then
prefixed with `http://` (so ` example.com ` crawls `http://example.com`),
while a verbatim-prefixed identifier is left untouched; ` http://x.com` fails
the verbatim test and therefore normalizes to `http://http://x.com`. -/
theorem c10_strip_only_schemeless :
    (∀ s : String, hasSchemePre s = false → normalizeWebsite s = "http://" ++ pyStrip s)
    ∧ (∀ s : String, hasSchemePre s = true → normalizeWebsite s = s)
    ∧ crawl_targets (CellValue.str " example.com ")
        = crawl_targets (CellValue.str "example.com")
    ∧ (crawl_targets (CellValue.str " example.com "))[0]? = some "http://example.com"
    ∧ hasSchemePre " http://x.com" = false
    ∧ normalizeWebsite " http://x.com" = "http://http://x.com" := by
  refine ⟨?_, ?_, by decide, by decide, by decide, by decide⟩
  · intro s h
    simp [normalizeWebsite, h]
  · intro s h
    simp [normalizeWebsite, h]

theorem c10_strip_only_schemeless_witness :
    normalizeWebsite " example.com " = "http://" ++ pyStrip " example.com " :=
  c10_strip_only_schemeless.1 " example.com " (by decide)

end EmailScraper
